import Mathlib

/-
Verification of the pipeline orchestration engine of the
llm-calendar-assistant repository.

The engine lives in app/core/pipeline.py, app/core/node.py,
app/core/router.py, app/core/schema/task.py and app/core/schema/pipeline.py.
Python classes used as node identities are modelled by their class names
(strings); Python dicts keyed by strings are modelled as association lists
with Python dict semantics (first binding wins on lookup, in-place value
replacement on assignment, append for a fresh key).
-/

set_option autoImplicit false

/-- Model of a Python dict with string keys: an association list. -/
abbrev Pydict (α : Type) := List (String × α)

namespace Pydict

/-- Model of Python dict lookup d.get(key): value of the first binding of the key. -/
def get? {α : Type} : Pydict α → String → Option α
  | [], _ => none
  | (k, v) :: rest, key => if key = k then some v else get? rest key

/-- Model of Python dict lookup with a default, d.get(key, dflt). -/
def getD {α : Type} (d : Pydict α) (key : String) (dflt : α) : α :=
  (get? d key).getD dflt

/-- Model of Python dict assignment d[key] = v: replace the first binding of the
key in place, or append a fresh binding. -/
def set {α : Type} : Pydict α → String → α → Pydict α
  | [], key, v => [(key, v)]
  | (k, w) :: rest, key, v =>
      if key = k then (key, v) :: rest else (k, w) :: set rest key v

/-- Model of the Python double-splat merge of two dicts: every binding of the
second dict is assigned into the first, left to right. -/
def merge {α : Type} (old new : Pydict α) : Pydict α :=
  new.foldl (fun acc kv => set acc kv.1 kv.2) old

/-- Model of Python d.pop(key, None): remove the first binding of the key. -/
def pop {α : Type} : Pydict α → String → Pydict α
  | [], _ => []
  | (k, w) :: rest, key => if key = k then rest else (k, w) :: pop rest key

/-- Model of the Python membership test key in d. -/
def containsKey {α : Type} (d : Pydict α) (key : String) : Bool :=
  (get? d key).isSome

/-- Keys of the dict, in binding order. -/
def keys {α : Type} (d : Pydict α) : List String := d.map Prod.fst

/-- Number of bindings carrying the given key. -/
def countKey {α : Type} : Pydict α → String → Nat
  | [], _ => 0
  | (k, _) :: rest, key => (if key = k then 1 else 0) + countKey rest key

theorem get?_set_self {α : Type} (d : Pydict α) (k : String) (v : α) :
    get? (set d k v) k = some v := by
  induction d with
  | nil => simp [set, get?]
  | cons hd tl ih =>
    obtain ⟨k1, v1⟩ := hd
    by_cases h : k = k1
    · simp [set, h, get?]
    · simp [set, h, get?, ih]

theorem get?_set_ne {α : Type} (d : Pydict α) (k k2 : String) (v : α)
    (h : k2 ≠ k) : get? (set d k v) k2 = get? d k2 := by
  induction d with
  | nil => simp [set, get?, h]
  | cons hd tl ih =>
    obtain ⟨k1, v1⟩ := hd
    by_cases h1 : k = k1
    · subst h1
      simp [set, get?, h]
    · by_cases h2 : k2 = k1 <;> simp [set, get?, h1, h2, ih]

theorem get?_eq_none_of_not_mem_keys {α : Type} (d : Pydict α) (k : String)
    (h : k ∉ keys d) : get? d k = none := by
  induction d with
  | nil => rfl
  | cons hd tl ih =>
    obtain ⟨k1, v1⟩ := hd
    simp only [keys, List.map_cons, List.mem_cons, not_or] at h
    simp [get?, h.1, ih (by simpa [keys] using h.2)]

theorem get?_merge {α : Type} (old new : Pydict α) (k : String)
    (hnodup : (keys new).Nodup) :
    get? (merge old new) k =
      match get? new k with
      | some v => some v
      | none => get? old k := by
  induction new generalizing old with
  | nil => simp [merge, get?]
  | cons hd tl ih =>
    obtain ⟨k1, v1⟩ := hd
    simp only [keys, List.map_cons, List.nodup_cons] at hnodup
    have step : merge old ((k1, v1) :: tl) = merge (set old k1 v1) tl := by
      simp [merge]
    rw [step, ih (set old k1 v1) (by simpa [keys] using hnodup.2)]
    by_cases h : k = k1
    · subst h
      have : get? tl k = none :=
        get?_eq_none_of_not_mem_keys tl k (by simpa [keys] using hnodup.1)
      simp [get?, this, get?_set_self]
    · simp [get?, h, get?_set_ne old k1 k v1 h]

theorem set_eq_of_get? {α : Type} (d : Pydict α) (k : String) (v : α)
    (h : get? d k = some v) : set d k v = d := by
  induction d with
  | nil => simp [get?] at h
  | cons hd tl ih =>
    obtain ⟨k1, v1⟩ := hd
    by_cases h1 : k = k1
    · subst h1
      simp only [get?, if_pos] at h
      simp only [Option.some.injEq] at h
      simp [set, h]
    · simp only [get?, if_neg h1] at h
      simp [set, h1, ih h]

theorem mem_of_mem_pop {α : Type} (d : Pydict α) (k : String)
    (kv : String × α) (h : kv ∈ pop d k) : kv ∈ d := by
  induction d with
  | nil => simpa [pop] using h
  | cons hd tl ih =>
    obtain ⟨k1, v1⟩ := hd
    by_cases h1 : k = k1
    · simp only [pop, if_pos h1] at h
      exact List.mem_cons_of_mem _ h
    · simp only [pop, if_neg h1, List.mem_cons] at h
      rcases h with h | h
      · simp [h]
      · exact List.mem_cons_of_mem _ (ih h)

theorem countKey_pos_of_mem {α : Type} (d : Pydict α) (k : String) (v : α)
    (h : (k, v) ∈ d) : 0 < countKey d k := by
  induction d with
  | nil => simp at h
  | cons hd tl ih =>
    obtain ⟨k1, v1⟩ := hd
    rcases List.mem_cons.mp h with h | h
    · obtain ⟨rfl, rfl⟩ := Prod.mk.injEq .. ▸ h
      simp [countKey]
    · have := ih h
      by_cases h1 : k = k1 <;> simp [countKey, h1] <;> omega

theorem countKey_pop {α : Type} (d : Pydict α) (k : String) :
    countKey (pop d k) k = countKey d k - 1 := by
  induction d with
  | nil => simp [pop, countKey]
  | cons hd tl ih =>
    obtain ⟨k1, v1⟩ := hd
    by_cases h1 : k = k1
    · simp [pop, countKey, h1]
    · simp [pop, countKey, h1, ih]

theorem get?_eq_none_of_countKey_eq_zero {α : Type} (d : Pydict α) (k : String)
    (h : countKey d k = 0) : get? d k = none := by
  induction d with
  | nil => rfl
  | cons hd tl ih =>
    obtain ⟨k1, v1⟩ := hd
    by_cases h1 : k = k1
    · simp [countKey, h1] at h
    · simp only [countKey, if_neg h1, zero_add] at h
      simp [get?, h1, ih h]

theorem get?_pop_self {α : Type} (d : Pydict α) (k : String)
    (h : countKey d k ≤ 1) : get? (pop d k) k = none := by
  induction d with
  | nil => rfl
  | cons hd tl ih =>
    obtain ⟨k1, v1⟩ := hd
    by_cases h1 : k = k1
    · simp only [countKey, if_pos h1] at h
      simp only [pop, if_pos h1]
      exact get?_eq_none_of_countKey_eq_zero tl k (by omega)
    · simp only [countKey, if_neg h1, zero_add] at h
      simp [pop, h1, get?, ih h]

end Pydict

/-- Model of a Python value stored in a node record of the execution context.
The engine itself only ever reads string-valued fields, so strings, integers
and None suffice. -/
inductive Val where
  | vStr : String → Val
  | vInt : Int → Val
  | vNone : Val
  deriving DecidableEq, Repr

/-- Model of the NodeConfig pydantic model of app/core/schema/pipeline.py:
a node class (modelled by its name), its ordered connection list, the
is_router flag and an optional description. -/
structure NodeConfig where
  node : String
  connections : List String := []
  is_router : Bool := false
  description : Option String := none
  deriving DecidableEq, Repr

/-- Model of the PipelineSchema pydantic model of app/core/schema/pipeline.py. -/
structure PipelineSchema where
  description : Option String := none
  start : String
  nodes : List NodeConfig
  deriving DecidableEq, Repr

/-- The NodeConfig produced by the Python call NodeConfig with only the node
argument: all the other fields take their declared defaults. -/
def autoNodeConfig (node : String) : NodeConfig :=
  { node := node }

/-- Model of a value stored in the metadata mapping of the execution context:
either the runtime node registry staged by Pipeline.run, or a plain value. -/
inductive MetaVal where
  | registry : Pydict NodeConfig → MetaVal
  | plain : Val → MetaVal
  deriving DecidableEq, Repr

/-- True exactly on the registry constructor. -/
def MetaVal.isRegistry : MetaVal → Bool
  | MetaVal.registry _ => true
  | MetaVal.plain _ => false

/-- Model of the EventSchema input event, opaque to the engine. -/
structure EventSchema where
  payload : String
  deriving DecidableEq, Repr

/-- Model of the TaskContext pydantic model of app/core/schema/task.py.
The source declares exactly the three fields event, nodes and metadata;
in particular it declares no error field, which matters to Pipeline.run
below. -/
structure TaskContext where
  event : EventSchema
  nodes : Pydict (Pydict Val) := []
  metadata : Pydict MetaVal := []
  deriving DecidableEq, Repr

/-- Model of TaskContext.update_node of app/core/schema/task.py: merge the
keyword arguments into the existing record of the node, creating the record
when absent. The source line is
self.nodes[node_name] = dict-splat of self.nodes.get(node_name) then kwargs. -/
def TaskContext.update_node (ctx : TaskContext) (node_name : String)
    (kwargs : Pydict Val) : TaskContext :=
  { ctx with
      nodes := Pydict.set ctx.nodes node_name
        (Pydict.merge (Pydict.getD ctx.nodes node_name []) kwargs) }

/-- Model of the Router class of app/core/router.py: the node name property,
the ordered list of routing rules (each one the determine_next_node method of
a RouterNode class, instantiated per call), and the optional fallback node. -/
structure RouterModel where
  name : String
  routes : List (TaskContext → Option String)
  fallback : Option String

/-- Model of the for loop inside Router.route: evaluate each rule in order and
return the first truthy result, else the fallback. -/
def routeLoop (fallback : Option String) :
    List (TaskContext → Option String) → TaskContext → Option String
  | [], _ => fallback
  | rule :: rest, ctx =>
      match rule ctx with
      | some nxt => some nxt
      | none => routeLoop fallback rest ctx

/-- Model of Router.route of app/core/router.py lines 60 to 77. -/
def Router.route (r : RouterModel) (ctx : TaskContext) : Option String :=
  routeLoop r.fallback r.routes ctx

/-- Model of Router.process of app/core/router.py lines 45 to 58: compute the
route, then assign a fresh one-field record under the router's own name by
plain dict assignment (the source does not call update_node here). -/
def Router.process (r : RouterModel) (ctx : TaskContext) : TaskContext :=
  let next_node_class := Router.route r ctx
  { ctx with
      nodes := Pydict.set ctx.nodes r.name
        [("next_node",
          match next_node_class with
          | some n => Val.vStr n
          | none => Val.vNone)] }

/-- Model of a Python exception reaching the engine: KeyError from the registry
lookup, ValueError from pydantic attribute assignment, or any other exception
classified by its message. -/
inductive PyErr where
  | keyError : String → PyErr
  | valueError : String → PyErr
  | exception : String → PyErr
  deriving DecidableEq, Repr

/-- Model of a concrete Pipeline subclass of app/core/pipeline.py: its class
level pipeline_schema plus the behaviour of its node classes. procOf models
instantiating the node class named by the string and calling its process
method: it yields the context as left behind by the call together with the
exception the call raised, if any. routeOf models instantiating a router class
and calling its route method. -/
structure Pipeline where
  pipeline_schema : PipelineSchema
  procOf : String → TaskContext → TaskContext × Option PyErr
  routeOf : String → TaskContext → Except PyErr (Option String)

/-- Model of the inner loop of Pipeline initialization over one connection
list: a connected node that is not yet registered is added with the default
NodeConfig. -/
def addMissing (reg : Pydict NodeConfig) (connections : List String) :
    Pydict NodeConfig :=
  connections.foldl
    (fun r c => if Pydict.containsKey r c then r else Pydict.set r c (autoNodeConfig c))
    reg

/-- Model of one iteration of the outer loop of Pipeline initialization of
app/core/pipeline.py lines 44 to 51: register the declared node, then register
every connected node that is still missing. -/
def initNodeStep (reg : Pydict NodeConfig) (cfg : NodeConfig) : Pydict NodeConfig :=
  addMissing (Pydict.set reg cfg.node cfg) cfg.connections

/-- Model of Pipeline initialization of app/core/pipeline.py lines 41 to 51,
starting from the empty registry assigned in the constructor. -/
def Pipeline.initialize_nodes (s : PipelineSchema) : Pydict NodeConfig :=
  s.nodes.foldl initNodeStep []

/-- The registry owned by a pipeline instance, as built by its constructor. -/
def Pipeline.nodes (p : Pipeline) : Pydict NodeConfig :=
  Pipeline.initialize_nodes p.pipeline_schema

/-- Model of the Pipeline constructor of app/core/pipeline.py lines 36 to 39.
The constructor body only assigns the empty dict and runs the registry loop;
it contains no raise statement and no validation of the start identity, so it
never fails. -/
def Pipeline.construct (s : PipelineSchema) : Except PyErr (Pydict NodeConfig) :=
  Except.ok (Pipeline.initialize_nodes s)

/-- The status strings of app/core/pipeline.py line 128 that halt traversal. -/
def haltingStatuses : List Val :=
  [Val.vStr "failed", Val.vStr "blocked", Val.vStr "error"]

/-- Model of Pipeline getting the next node class, app/core/pipeline.py lines
113 to 139: read the status field of the record of the current node, halt on a
halting status, then follow the configuration, consulting the router when the
is_router flag is set (the source delegates that call through a handler method
that only forwards to route). -/
def Pipeline.get_next_node_class (p : Pipeline) (current : String)
    (ctx : TaskContext) : Except PyErr (Option String) :=
  let node_status := Pydict.getD (Pydict.getD ctx.nodes current []) "status" (Val.vStr "")
  if node_status ∈ haltingStatuses then
    Except.ok none
  else
    match Pydict.get? (Pipeline.nodes p) current with
    | none => Except.ok none
    | some cfg =>
        match cfg.connections with
        | [] => Except.ok none
        | c :: _ =>
            if cfg.is_router then p.routeOf current ctx
            else Except.ok (some c)

/-- The successor resolution of app/core/pipeline.py lines 131 to 139 alone,
without the preceding status check. -/
def Pipeline.resolveSuccessor (p : Pipeline) (current : String)
    (ctx : TaskContext) : Except PyErr (Option String) :=
  match Pydict.get? (Pipeline.nodes p) current with
  | none => Except.ok none
  | some cfg =>
      match cfg.connections with
      | [] => Except.ok none
      | c :: _ =>
          if cfg.is_router then p.routeOf current ctx
          else Except.ok (some c)

/-- Outcome of the while loop of Pipeline.run: the context when the loop
condition became false, or the context together with the escaped exception and
the value of the current node variable when an exception aborted the loop, or
fuel exhaustion standing for non termination. Each outcome also carries the
list of node names whose process call was entered, in execution order. -/
inductive LoopResult where
  | finished : TaskContext → List String → LoopResult
  | raised : TaskContext → List String → PyErr → Option String → LoopResult
  | outOfFuel : TaskContext → List String → LoopResult
  deriving Repr

/-- Model of the while loop of app/core/pipeline.py lines 92 to 97. One
iteration looks up the current node class in the registry (a missing key
raises KeyError), instantiates it and calls process, then resolves the next
node class. The per node logging context manager only logs and re-raises, so
it is not modelled. -/
def Pipeline.runLoop (p : Pipeline) :
    Nat → Option String → TaskContext → LoopResult
  | _, none, ctx => LoopResult.finished ctx []
  | 0, some _, ctx => LoopResult.outOfFuel ctx []
  | Nat.succ fuel, some current, ctx =>
      match Pydict.get? (Pipeline.nodes p) current with
      | none => LoopResult.raised ctx [] (PyErr.keyError current) (some current)
      | some _cfg =>
          match p.procOf current ctx with
          | (ctx1, some e) => LoopResult.raised ctx1 [current] e (some current)
          | (ctx1, none) =>
              match Pipeline.get_next_node_class p current ctx1 with
              | Except.error e =>
                  LoopResult.raised ctx1 [current] e (some current)
              | Except.ok next =>
                  match Pipeline.runLoop p fuel next ctx1 with
                  | LoopResult.finished c t => LoopResult.finished c (current :: t)
                  | LoopResult.raised c t e n => LoopResult.raised c (current :: t) e n
                  | LoopResult.outOfFuel c t => LoopResult.outOfFuel c (current :: t)

/-- Outcome of Pipeline.run: a returned context, an exception escaping to the
caller, or non termination. -/
inductive RunResult where
  | returns : TaskContext → RunResult
  | raises : PyErr → RunResult
  | diverges : RunResult
  deriving DecidableEq, Repr

/-- The message of the ValueError that pydantic raises when Pipeline.run
assigns task_context.error: the TaskContext model of app/core/schema/task.py
declares no error field and no extra-allow configuration, and pydantic
forbids setting an undeclared attribute. -/
def noErrorFieldMsg : String := "TaskContext object has no field error"

/-- Model of Pipeline.run of app/core/pipeline.py lines 75 to 111, also
returning the list of executed node names. A fresh context is built from the
event, the registry is staged into its metadata under the key nodes, and the
loop runs from the start identity. When the loop finishes, the staged registry
is popped from the metadata and the context is returned. When an exception
aborts the loop, the except block builds the error dict but its assignment to
task_context.error raises ValueError (see noErrorFieldMsg), which propagates
to the caller, skipping the pop and the return. -/
def Pipeline.runWithTrace (p : Pipeline) (fuel : Nat) (event : EventSchema) :
    RunResult × List String :=
  let ctx0 : TaskContext := { event := event }
  let ctx1 : TaskContext :=
    { ctx0 with
        metadata := Pydict.set ctx0.metadata "nodes" (MetaVal.registry (Pipeline.nodes p)) }
  match Pipeline.runLoop p fuel (some p.pipeline_schema.start) ctx1 with
  | LoopResult.finished ctx trace =>
      (RunResult.returns { ctx with metadata := Pydict.pop ctx.metadata "nodes" }, trace)
  | LoopResult.raised _ctx trace _e _cur =>
      (RunResult.raises (PyErr.valueError noErrorFieldMsg), trace)
  | LoopResult.outOfFuel _ trace => (RunResult.diverges, trace)

/-- The outward operation of the engine. -/
def Pipeline.run (p : Pipeline) (fuel : Nat) (event : EventSchema) : RunResult :=
  (Pipeline.runWithTrace p fuel event).1

theorem routeLoop_eq_findSome? (fb : Option String)
    (rules : List (TaskContext → Option String)) (ctx : TaskContext) :
    routeLoop fb rules ctx =
      match rules.findSome? (fun rule => rule ctx) with
      | some n => some n
      | none => fb := by
  induction rules with
  | nil => simp [routeLoop, List.findSome?]
  | cons rule rest ih =>
    simp only [routeLoop, List.findSome?_cons]
    cases rule ctx with
    | none => simpa using ih
    | some nxt => simp

/-- C4: Router.route evaluates the rules in declaration order and returns the
result of the first rule that returns a non-empty next node identity; if every
rule returns empty it returns the fallback, which may itself be empty. In
particular, with rules R1 returning empty and R2 returning c the choice is c,
and with both rules returning empty the choice is the fallback. -/
theorem router_first_match (r : RouterModel) (ctx : TaskContext) :
    (Router.route r ctx =
      match r.routes.findSome? (fun rule => rule ctx) with
      | some n => some n
      | none => r.fallback)
    ∧ (∀ (c : String) (f : Option String),
        Router.route { name := r.name, routes := [fun _ => none, fun _ => some c],
                       fallback := f } ctx = some c)
    ∧ (∀ (f : Option String),
        Router.route { name := r.name, routes := [fun _ => none, fun _ => none],
                       fallback := f } ctx = f) := by
  refine ⟨routeLoop_eq_findSome? r.fallback r.routes ctx, ?_, ?_⟩
  · intro c f
    simp [Router.route, routeLoop]
  · intro f
    simp [Router.route, routeLoop]

/-- C5: TaskContext.update_node merges the given keyword arguments into the
record of the named node: a key absent from the arguments keeps its previous
value, a key present in the arguments takes the supplied value, the record is
created when absent, and every other node record is untouched. The concrete
conjunct records the example of writing key a then key b under identity X. -/
theorem update_node_safe_merge (ctx : TaskContext) (name k other : String)
    (kwargs : Pydict Val) (hnodup : (Pydict.keys kwargs).Nodup) :
    (Pydict.get? kwargs k = none →
      Pydict.get? (Pydict.getD (TaskContext.update_node ctx name kwargs).nodes name []) k
        = Pydict.get? (Pydict.getD ctx.nodes name []) k)
    ∧ (∀ v, Pydict.get? kwargs k = some v →
      Pydict.get? (Pydict.getD (TaskContext.update_node ctx name kwargs).nodes name []) k
        = some v)
    ∧ (other ≠ name →
      Pydict.get? (TaskContext.update_node ctx name kwargs).nodes other
        = Pydict.get? ctx.nodes other)
    ∧ ((TaskContext.update_node
          (TaskContext.update_node
            { event := { payload := "e" }, nodes := [], metadata := [] }
            "X" [("a", Val.vInt 1)])
          "X" [("b", Val.vInt 2)]).nodes
        = [("X", [("a", Val.vInt 1), ("b", Val.vInt 2)])]) := by
  have hrec : Pydict.getD (TaskContext.update_node ctx name kwargs).nodes name []
      = Pydict.merge (Pydict.getD ctx.nodes name []) kwargs := by
    simp [TaskContext.update_node, Pydict.getD, Pydict.get?_set_self]
  refine ⟨?_, ?_, ?_, by rfl⟩
  · intro hnone
    rw [hrec, Pydict.get?_merge _ _ _ hnodup, hnone]
  · intro v hv
    rw [hrec, Pydict.get?_merge _ _ _ hnodup, hv]
  · intro hne
    simp [TaskContext.update_node, Pydict.get?_set_ne _ _ _ _ hne]

theorem update_node_safe_merge_witness :
    (Pydict.keys [("b", Val.vInt 2)]).Nodup
    ∧ ((Pydict.get? [("b", Val.vInt 2)] "a" = none →
        Pydict.get? (Pydict.getD (TaskContext.update_node
            { event := { payload := "e" },
              nodes := [("X", [("a", Val.vInt 1)])], metadata := [] }
            "X" [("b", Val.vInt 2)]).nodes "X" []) "a"
          = Pydict.get? (Pydict.getD
              ([("X", [("a", Val.vInt 1)])] : Pydict (Pydict Val)) "X" []) "a")
      ∧ (∀ v, Pydict.get? [("b", Val.vInt 2)] "b" = some v →
        Pydict.get? (Pydict.getD (TaskContext.update_node
            { event := { payload := "e" },
              nodes := [("X", [("a", Val.vInt 1)])], metadata := [] }
            "X" [("b", Val.vInt 2)]).nodes "X" []) "b" = some v)
      ∧ ("Y" ≠ "X" →
        Pydict.get? (TaskContext.update_node
            { event := { payload := "e" },
              nodes := [("X", [("a", Val.vInt 1)])], metadata := [] }
            "X" [("b", Val.vInt 2)]).nodes "Y"
          = Pydict.get? ([("X", [("a", Val.vInt 1)])] : Pydict (Pydict Val)) "Y")
      ∧ ((TaskContext.update_node
            (TaskContext.update_node
              { event := { payload := "e" }, nodes := [], metadata := [] }
              "X" [("a", Val.vInt 1)])
            "X" [("b", Val.vInt 2)]).nodes
          = [("X", [("a", Val.vInt 1), ("b", Val.vInt 2)])])) := by
  refine ⟨by decide, ?_⟩
  have h := update_node_safe_merge
    { event := { payload := "e" }, nodes := [("X", [("a", Val.vInt 1)])], metadata := [] }
    "X" "a" "Y" [("b", Val.vInt 2)] (by decide)
  have h2 := update_node_safe_merge
    { event := { payload := "e" }, nodes := [("X", [("a", Val.vInt 1)])], metadata := [] }
    "X" "b" "Y" [("b", Val.vInt 2)] (by decide)
  exact ⟨h.1, h2.2.1, h.2.2.1, h.2.2.2⟩

/-- A router with no rules and no fallback, used as concrete input. -/
def routerR9 : RouterModel := { name := "R", routes := [], fallback := none }

/-- A context that already holds a field under the router's own identity. -/
def ctx9 : TaskContext :=
  { event := { payload := "e" }, nodes := [("R", [("a", Val.vInt 1)])], metadata := [] }

/-- C9 counterexample: Router.process does not use the safe-merge update
discipline under its own identity. On a context whose record for the router R
already holds the field a, processing drops that field: the claim that fields
previously stored under its own identity are preserved is false at this
input. -/
theorem router_process_overwrites_counterexample :
    Pydict.get? (Pydict.getD ctx9.nodes "R" []) "a" = some (Val.vInt 1)
    ∧ Pydict.get? (Pydict.getD (Router.process routerR9 ctx9).nodes "R" []) "a" = none
    ∧ Pydict.get? (Router.process routerR9 ctx9).nodes "R"
        = some [("next_node", Val.vNone)] := by
  refine ⟨rfl, rfl, rfl⟩

/-- C9 amended: Router.process records only the chosen next node identity (or
empty) under its own identity by plain dict assignment that replaces its own
record, dropping fields previously stored there; it makes no other mutation:
the event, the metadata and every other node record are unchanged. -/
theorem router_process_frame (r : RouterModel) (ctx : TaskContext) :
    (Router.process r ctx).event = ctx.event
    ∧ (Router.process r ctx).metadata = ctx.metadata
    ∧ (∀ k, k ≠ r.name →
        Pydict.get? (Router.process r ctx).nodes k = Pydict.get? ctx.nodes k)
    ∧ Pydict.get? (Router.process r ctx).nodes r.name =
        some [("next_node",
          match Router.route r ctx with
          | some n => Val.vStr n
          | none => Val.vNone)] := by
  refine ⟨rfl, rfl, ?_, ?_⟩
  · intro k hk
    simp [Router.process, Pydict.get?_set_ne _ _ _ _ hk]
  · simp [Router.process, Pydict.get?_set_self]

theorem router_process_frame_witness :
    ("Y" ≠ "R")
    ∧ Pydict.get? (Router.process routerR9 ctx9).nodes "Y"
        = Pydict.get? ctx9.nodes "Y" := by
  exact ⟨by decide, (router_process_frame routerR9 ctx9).2.2.1 "Y" (by decide)⟩

/-- C3: whenever the record of the current node carries a status equal to
failed, blocked or error, next node resolution returns no successor, for every
pipeline, hence regardless of the declared successor list and of the is_router
flag: neither the registry entry nor the router is consulted. -/
theorem halting_status_stops (p : Pipeline) (current : String) (ctx : TaskContext)
    (nrec : Pydict Val) (v : Val)
    (hrec : Pydict.get? ctx.nodes current = some nrec)
    (hstatus : Pydict.get? nrec "status" = some v)
    (hhalt : v ∈ haltingStatuses) :
    Pipeline.get_next_node_class p current ctx = Except.ok none := by
  unfold Pipeline.get_next_node_class
  simp only [Pydict.getD, hrec, Option.getD_some, hstatus]
  rw [if_pos hhalt]

/-- A pipeline whose node A is a router with declared successors, used to show
that a halting status wins over both. Its routeOf would send A to B. -/
def pipeHalt : Pipeline :=
  { pipeline_schema :=
      { start := "A",
        nodes := [{ node := "A", connections := ["B"], is_router := true }] },
    procOf := fun _ ctx => (ctx, none),
    routeOf := fun _ _ => Except.ok (some "B") }

theorem halting_status_stops_witness :
    (Pydict.get? ([("A", [("status", Val.vStr "failed")])] : Pydict (Pydict Val)) "A"
        = some [("status", Val.vStr "failed")])
    ∧ (Pydict.get? [("status", Val.vStr "failed")] "status" = some (Val.vStr "failed"))
    ∧ (Val.vStr "failed" ∈ haltingStatuses)
    ∧ Pipeline.get_next_node_class pipeHalt "A"
        { event := { payload := "e" },
          nodes := [("A", [("status", Val.vStr "failed")])], metadata := [] }
        = Except.ok none := by
  refine ⟨by decide, by decide, by decide, ?_⟩
  exact halting_status_stops pipeHalt "A"
    { event := { payload := "e" },
      nodes := [("A", [("status", Val.vStr "failed")])], metadata := [] }
    [("status", Val.vStr "failed")] (Val.vStr "failed") rfl rfl (by decide)

/-- C10: when the record of the current node is absent, or carries no status
field, or carries a status outside the halting set, next node resolution is
exactly the successor resolution of the configuration: the declared successor
or the router decision; a missing status is never itself an error. -/
theorem non_halting_consults_successors (p : Pipeline) (current : String)
    (ctx : TaskContext)
    (h : Pydict.get? ctx.nodes current = none
      ∨ ∃ nrec, Pydict.get? ctx.nodes current = some nrec ∧
          (Pydict.get? nrec "status" = none
            ∨ ∃ v, Pydict.get? nrec "status" = some v ∧ v ∉ haltingStatuses)) :
    Pipeline.get_next_node_class p current ctx
      = Pipeline.resolveSuccessor p current ctx := by
  unfold Pipeline.get_next_node_class Pipeline.resolveSuccessor
  rcases h with h | ⟨nrec, hrec, h2⟩
  · simp only [Pydict.getD, h, Option.getD_none, Pydict.get?]
    rw [if_neg (by decide)]
  · rcases h2 with h2 | ⟨v, hv, hnin⟩
    · simp only [Pydict.getD, hrec, Option.getD_some, h2, Option.getD_none]
      rw [if_neg (by decide)]
    · simp only [Pydict.getD, hrec, Option.getD_some, hv]
      rw [if_neg hnin]

theorem non_halting_consults_successors_witness :
    (Pydict.get? ([("A", [("status", Val.vStr "completed")])] : Pydict (Pydict Val)) "A"
        = some [("status", Val.vStr "completed")]
      ∧ Val.vStr "completed" ∉ haltingStatuses)
    ∧ Pipeline.get_next_node_class pipeHalt "A"
        { event := { payload := "e" },
          nodes := [("A", [("status", Val.vStr "completed")])], metadata := [] }
        = Pipeline.resolveSuccessor pipeHalt "A"
        { event := { payload := "e" },
          nodes := [("A", [("status", Val.vStr "completed")])], metadata := [] } := by
  refine ⟨⟨by decide, by decide⟩, ?_⟩
  exact non_halting_consults_successors pipeHalt "A"
    { event := { payload := "e" },
      nodes := [("A", [("status", Val.vStr "completed")])], metadata := [] }
    (Or.inr ⟨[("status", Val.vStr "completed")], rfl,
      Or.inr ⟨Val.vStr "completed", rfl, by decide⟩⟩)

theorem Pydict.containsKey_iff {α : Type} (d : Pydict α) (k : String) :
    Pydict.containsKey d k = true ↔ ∃ v, Pydict.get? d k = some v := by
  simp [Pydict.containsKey, Option.isSome_iff_exists]

theorem addMissing_get?_preserved (reg : Pydict NodeConfig) (cs : List String)
    (k : String) (v : NodeConfig) (h : Pydict.get? reg k = some v) :
    Pydict.get? (addMissing reg cs) k = some v := by
  induction cs generalizing reg with
  | nil => simpa [addMissing] using h
  | cons c rest ih =>
    have step : addMissing reg (c :: rest)
        = addMissing (if Pydict.containsKey reg c then reg
                      else Pydict.set reg c (autoNodeConfig c)) rest := by
      simp [addMissing]
    rw [step]
    by_cases hc : Pydict.containsKey reg c
    · rw [if_pos hc]; exact ih reg h
    · rw [if_neg hc]
      refine ih _ ?_
      have hkc : k ≠ c := by
        intro hkc
        subst hkc
        simp [Pydict.containsKey, h] at hc
      rw [Pydict.get?_set_ne _ _ _ _ hkc]
      exact h

theorem addMissing_contains_preserved (reg : Pydict NodeConfig) (cs : List String)
    (k : String) (h : Pydict.containsKey reg k = true) :
    Pydict.containsKey (addMissing reg cs) k = true := by
  obtain ⟨v, hv⟩ := (Pydict.containsKey_iff reg k).mp h
  exact (Pydict.containsKey_iff _ k).mpr ⟨v, addMissing_get?_preserved reg cs k v hv⟩

theorem addMissing_contains_of_mem (reg : Pydict NodeConfig) (cs : List String)
    (c : String) (h : c ∈ cs) :
    Pydict.containsKey (addMissing reg cs) c = true := by
  induction cs generalizing reg with
  | nil => simp at h
  | cons c0 rest ih =>
    have step : addMissing reg (c0 :: rest)
        = addMissing (if Pydict.containsKey reg c0 then reg
                      else Pydict.set reg c0 (autoNodeConfig c0)) rest := by
      simp [addMissing]
    rw [step]
    rcases List.mem_cons.mp h with rfl | h
    · by_cases hc : Pydict.containsKey reg c
      · rw [if_pos hc]; exact addMissing_contains_preserved reg rest c hc
      · rw [if_neg hc]
        refine addMissing_contains_preserved _ rest c ?_
        exact (Pydict.containsKey_iff _ c).mpr ⟨_, Pydict.get?_set_self reg c _⟩
    · by_cases hc : Pydict.containsKey reg c0
      · rw [if_pos hc]; exact ih _ h
      · rw [if_neg hc]; exact ih _ h

theorem addMissing_auto_invariant (reg : Pydict NodeConfig) (cs : List String)
    (k : String)
    (h : Pydict.get? reg k = none ∨ Pydict.get? reg k = some (autoNodeConfig k)) :
    Pydict.get? (addMissing reg cs) k = none
      ∨ Pydict.get? (addMissing reg cs) k = some (autoNodeConfig k) := by
  induction cs generalizing reg with
  | nil => simpa [addMissing] using h
  | cons c rest ih =>
    have step : addMissing reg (c :: rest)
        = addMissing (if Pydict.containsKey reg c then reg
                      else Pydict.set reg c (autoNodeConfig c)) rest := by
      simp [addMissing]
    rw [step]
    by_cases hc : Pydict.containsKey reg c
    · rw [if_pos hc]; exact ih reg h
    · rw [if_neg hc]
      refine ih _ ?_
      by_cases hkc : k = c
      · subst hkc
        exact Or.inr (Pydict.get?_set_self reg k _)
      · rw [Pydict.get?_set_ne _ _ _ _ hkc]
        exact h

theorem addMissing_id (reg : Pydict NodeConfig) (cs : List String)
    (h : ∀ c ∈ cs, Pydict.containsKey reg c = true) :
    addMissing reg cs = reg := by
  induction cs with
  | nil => rfl
  | cons c rest ih =>
    have step : addMissing reg (c :: rest)
        = addMissing (if Pydict.containsKey reg c then reg
                      else Pydict.set reg c (autoNodeConfig c)) rest := by
      simp [addMissing]
    rw [step, if_pos (h c (List.mem_cons_self c rest))]
    exact ih (fun c2 h2 => h c2 (List.mem_cons_of_mem c h2))

theorem initNodeStep_get?_self (reg : Pydict NodeConfig) (cfg : NodeConfig) :
    Pydict.get? (initNodeStep reg cfg) cfg.node = some cfg :=
  addMissing_get?_preserved _ _ _ _ (Pydict.get?_set_self reg cfg.node cfg)

theorem initNodeStep_get?_preserved (reg : Pydict NodeConfig) (cfg : NodeConfig)
    (k : String) (v : NodeConfig) (hne : k ≠ cfg.node)
    (h : Pydict.get? reg k = some v) :
    Pydict.get? (initNodeStep reg cfg) k = some v := by
  refine addMissing_get?_preserved _ _ _ _ ?_
  rw [Pydict.get?_set_ne _ _ _ _ hne]
  exact h

theorem initNodeStep_contains_preserved (reg : Pydict NodeConfig)
    (cfg : NodeConfig) (k : String) (h : Pydict.containsKey reg k = true) :
    Pydict.containsKey (initNodeStep reg cfg) k = true := by
  refine addMissing_contains_preserved _ _ _ ?_
  by_cases hk : k = cfg.node
  · subst hk
    exact (Pydict.containsKey_iff _ _).mpr ⟨cfg, Pydict.get?_set_self reg _ cfg⟩
  · obtain ⟨v, hv⟩ := (Pydict.containsKey_iff reg k).mp h
    refine (Pydict.containsKey_iff _ k).mpr ⟨v, ?_⟩
    rw [Pydict.get?_set_ne _ _ _ _ hk]
    exact hv

theorem initNodeStep_auto_invariant (reg : Pydict NodeConfig) (cfg : NodeConfig)
    (k : String) (hne : cfg.node ≠ k)
    (h : Pydict.get? reg k = none ∨ Pydict.get? reg k = some (autoNodeConfig k)) :
    Pydict.get? (initNodeStep reg cfg) k = none
      ∨ Pydict.get? (initNodeStep reg cfg) k = some (autoNodeConfig k) := by
  refine addMissing_auto_invariant _ _ _ ?_
  rw [Pydict.get?_set_ne _ _ _ _ (fun hk => hne hk.symm)]
  exact h

theorem foldl_init_get?_preserved (l : List NodeConfig) (reg : Pydict NodeConfig)
    (k : String) (v : NodeConfig) (h : Pydict.get? reg k = some v)
    (hne : ∀ cfg ∈ l, cfg.node ≠ k) :
    Pydict.get? (l.foldl initNodeStep reg) k = some v := by
  induction l generalizing reg with
  | nil => simpa using h
  | cons cfg rest ih =>
    rw [List.foldl_cons]
    refine ih _ ?_ (fun c hc => hne c (List.mem_cons_of_mem cfg hc))
    exact initNodeStep_get?_preserved reg cfg k v
      (fun hk => hne cfg (List.mem_cons_self cfg rest) hk.symm) h

theorem foldl_init_contains_preserved (l : List NodeConfig)
    (reg : Pydict NodeConfig) (k : String)
    (h : Pydict.containsKey reg k = true) :
    Pydict.containsKey (l.foldl initNodeStep reg) k = true := by
  induction l generalizing reg with
  | nil => simpa using h
  | cons cfg rest ih =>
    rw [List.foldl_cons]
    exact ih _ (initNodeStep_contains_preserved reg cfg k h)

theorem foldl_init_declared (l : List NodeConfig) (reg : Pydict NodeConfig)
    (hnodup : (l.map NodeConfig.node).Nodup) (cfg : NodeConfig) (h : cfg ∈ l) :
    Pydict.get? (l.foldl initNodeStep reg) cfg.node = some cfg := by
  induction l generalizing reg with
  | nil => simp at h
  | cons cfg0 rest ih =>
    rw [List.foldl_cons]
    simp only [List.map_cons, List.nodup_cons] at hnodup
    rcases List.mem_cons.mp h with rfl | h
    · refine foldl_init_get?_preserved rest _ cfg.node cfg
        (initNodeStep_get?_self reg cfg) ?_
      intro cfg2 h2 heq
      exact hnodup.1 (heq ▸ List.mem_map_of_mem NodeConfig.node h2)
    · exact ih _ hnodup.2 h

theorem foldl_init_connections (l : List NodeConfig) (reg : Pydict NodeConfig)
    (cfg : NodeConfig) (h : cfg ∈ l) (c : String) (hc : c ∈ cfg.connections) :
    Pydict.containsKey (l.foldl initNodeStep reg) c = true := by
  induction l generalizing reg with
  | nil => simp at h
  | cons cfg0 rest ih =>
    rw [List.foldl_cons]
    rcases List.mem_cons.mp h with rfl | h
    · exact foldl_init_contains_preserved rest _ c
        (addMissing_contains_of_mem _ _ c hc)
    · exact ih _ h

theorem foldl_init_auto_invariant (l : List NodeConfig) (reg : Pydict NodeConfig)
    (k : String) (hne : ∀ cfg ∈ l, cfg.node ≠ k)
    (h : Pydict.get? reg k = none ∨ Pydict.get? reg k = some (autoNodeConfig k)) :
    Pydict.get? (l.foldl initNodeStep reg) k = none
      ∨ Pydict.get? (l.foldl initNodeStep reg) k = some (autoNodeConfig k) := by
  induction l generalizing reg with
  | nil => simpa using h
  | cons cfg rest ih =>
    rw [List.foldl_cons]
    refine ih _ (fun c hc => hne c (List.mem_cons_of_mem cfg hc)) ?_
    exact initNodeStep_auto_invariant reg cfg k
      (hne cfg (List.mem_cons_self cfg rest)) h

theorem initNodeStep_id (reg : Pydict NodeConfig) (cfg : NodeConfig)
    (h1 : Pydict.get? reg cfg.node = some cfg)
    (h2 : ∀ c ∈ cfg.connections, Pydict.containsKey reg c = true) :
    initNodeStep reg cfg = reg := by
  unfold initNodeStep
  rw [Pydict.set_eq_of_get? reg cfg.node cfg h1]
  exact addMissing_id reg cfg.connections h2

theorem foldl_init_id (l : List NodeConfig) (reg : Pydict NodeConfig)
    (h : ∀ cfg ∈ l, Pydict.get? reg cfg.node = some cfg
        ∧ ∀ c ∈ cfg.connections, Pydict.containsKey reg c = true) :
    l.foldl initNodeStep reg = reg := by
  induction l with
  | nil => rfl
  | cons cfg rest ih =>
    rw [List.foldl_cons,
      initNodeStep_id reg cfg (h cfg (List.mem_cons_self cfg rest)).1
        (h cfg (List.mem_cons_self cfg rest)).2]
    exact ih (fun c hc => h c (List.mem_cons_of_mem cfg hc))

/-- C6: registry construction maps every declared identity to its declared
configuration; every identity referenced in a connection list is registered;
an identity referenced only as a successor is auto-registered with the default
configuration (empty successor list, is_router false); and rerunning the
construction loop over the registry it produced leaves the registry unchanged.
The uniqueness hypothesis mirrors the data model requirement that declared
identities be unique. -/
theorem registry_construction (s : PipelineSchema)
    (hnodup : (s.nodes.map NodeConfig.node).Nodup) :
    (∀ cfg ∈ s.nodes,
        Pydict.get? (Pipeline.initialize_nodes s) cfg.node = some cfg)
    ∧ (∀ cfg ∈ s.nodes, ∀ c ∈ cfg.connections,
        Pydict.containsKey (Pipeline.initialize_nodes s) c = true)
    ∧ (∀ nodeId, (∀ cfg ∈ s.nodes, cfg.node ≠ nodeId) →
        (∃ cfg ∈ s.nodes, nodeId ∈ cfg.connections) →
        Pydict.get? (Pipeline.initialize_nodes s) nodeId
          = some (autoNodeConfig nodeId))
    ∧ s.nodes.foldl initNodeStep (Pipeline.initialize_nodes s)
        = Pipeline.initialize_nodes s := by
  have decl : ∀ cfg ∈ s.nodes,
      Pydict.get? (Pipeline.initialize_nodes s) cfg.node = some cfg :=
    fun cfg h => foldl_init_declared s.nodes [] hnodup cfg h
  have conn : ∀ cfg ∈ s.nodes, ∀ c ∈ cfg.connections,
      Pydict.containsKey (Pipeline.initialize_nodes s) c = true :=
    fun cfg h c hc => foldl_init_connections s.nodes [] cfg h c hc
  refine ⟨decl, conn, ?_, ?_⟩
  · intro nodeId hne href
    obtain ⟨cfg, hcfg, hcc⟩ := href
    have hcontains := conn cfg hcfg nodeId hcc
    have hauto := foldl_init_auto_invariant s.nodes [] nodeId hne (Or.inl rfl)
    rcases hauto with hnone | hsome
    · exfalso
      have hc2 : Pydict.get? (Pipeline.initialize_nodes s) nodeId = none := hnone
      rw [Pydict.containsKey, hc2] at hcontains
      simp at hcontains
    · exact hsome
  · exact foldl_init_id s.nodes (Pipeline.initialize_nodes s)
      (fun cfg h => ⟨decl cfg h, conn cfg h⟩)

/-- A declared node used by the construction witness. -/
def cfgA : NodeConfig := { node := "A", connections := ["B"] }

/-- A schema with one declared plain node, one declared router, and three
identities that appear only as successors. -/
def schemaC6 : PipelineSchema :=
  { start := "A",
    nodes := [cfgA, { node := "R", connections := ["C", "D"], is_router := true }] }

theorem registry_construction_witness :
    ((schemaC6.nodes.map NodeConfig.node).Nodup)
    ∧ Pydict.get? (Pipeline.initialize_nodes schemaC6) "B"
        = some (autoNodeConfig "B") := by
  refine ⟨by decide, ?_⟩
  exact (registry_construction schemaC6 (by decide)).2.2.1 "B" (by decide)
    ⟨cfgA, by decide, by decide⟩

/-- A schema whose start identity X is neither declared nor referenced. -/
def badStartSchema : PipelineSchema :=
  { start := "X", nodes := [{ node := "A", connections := ["B"] }] }

/-- C7 counterexample: constructing a pipeline whose start identity is not
among the declared or auto-added identities succeeds, refuting the claim that
it is a construction-time error: the constructor contains no validation of the
start identity. -/
theorem construction_missing_start_counterexample :
    Pipeline.construct badStartSchema
        = Except.ok (Pipeline.initialize_nodes badStartSchema)
    ∧ Pydict.containsKey (Pipeline.initialize_nodes badStartSchema) "X" = false := by
  exact ⟨rfl, by decide⟩

/-- C7 amended: construction never fails, whatever the start identity; an
unregistered start is detected only at run time, where the first registry
lookup of the loop raises KeyError and the broken error handler of the run
then raises ValueError to the caller. -/
theorem construction_never_fails (p : Pipeline) (fuel : Nat) (ev : EventSchema)
    (h : Pydict.containsKey (Pipeline.nodes p) p.pipeline_schema.start = false) :
    Pipeline.construct p.pipeline_schema = Except.ok (Pipeline.nodes p)
    ∧ Pipeline.run p (fuel + 1) ev
        = RunResult.raises (PyErr.valueError noErrorFieldMsg) := by
  refine ⟨rfl, ?_⟩
  have hget : Pydict.get? (Pipeline.nodes p) p.pipeline_schema.start = none := by
    cases hg : Pydict.get? (Pipeline.nodes p) p.pipeline_schema.start with
    | none => rfl
    | some v =>
        rw [Pydict.containsKey, hg] at h
        simp at h
  unfold Pipeline.run Pipeline.runWithTrace Pipeline.runLoop
  rw [hget]

/-- A pipeline over badStartSchema with inert node behaviour. -/
def pipeBadStart : Pipeline :=
  { pipeline_schema := badStartSchema,
    procOf := fun _ ctx => (ctx, none),
    routeOf := fun _ _ => Except.ok none }

theorem construction_never_fails_witness :
    (Pydict.containsKey (Pipeline.nodes pipeBadStart)
        pipeBadStart.pipeline_schema.start = false)
    ∧ (Pipeline.construct pipeBadStart.pipeline_schema
        = Except.ok (Pipeline.nodes pipeBadStart)
      ∧ Pipeline.run pipeBadStart 1 { payload := "e" }
        = RunResult.raises (PyErr.valueError noErrorFieldMsg)) := by
  exact ⟨by decide, construction_never_fails pipeBadStart 0 { payload := "e" } (by decide)⟩

/-- A single node pipeline whose only node raises from its process call. -/
def pipeC1 : Pipeline :=
  { pipeline_schema := { start := "A", nodes := [{ node := "A" }] },
    procOf := fun _ ctx => (ctx, some (PyErr.exception "boom")),
    routeOf := fun _ _ => Except.ok none }

/-- C1 evidence: Pipeline.run does not return a context when a node raises.
The loop catches the failure, but the except block assigns task_context.error
on a pydantic model that declares no error field, so the handler itself raises
ValueError and the run raises to its caller instead of returning a context
whose error field encodes the failure. -/
theorem run_error_handler_raises :
    Pipeline.run pipeC1 5 { payload := "e" }
      = RunResult.raises (PyErr.valueError noErrorFieldMsg) := by
  rfl

/-- A three node chain where the middle node raises and the others record a
completed status. -/
def pipeC2 : Pipeline :=
  { pipeline_schema :=
      { start := "A",
        nodes := [{ node := "A", connections := ["B"] },
                  { node := "B", connections := ["C"] },
                  { node := "C" }] },
    procOf := fun name ctx =>
      if name = "B" then (ctx, some (PyErr.exception "boom"))
      else (TaskContext.update_node ctx name [("status", Val.vStr "completed")], none),
    routeOf := fun _ _ => Except.ok none }

/-- C2 evidence: the first failing process call aborts the loop immediately,
so only A and B ever execute and C never runs; but instead of returning a
context carrying exactly one structured error record naming B, the run raises
ValueError out of its own error handler, so no error record reaches the
caller. -/
theorem first_failure_aborts_handler_raises :
    Pipeline.runWithTrace pipeC2 9 { payload := "e" }
      = (RunResult.raises (PyErr.valueError noErrorFieldMsg), ["A", "B"]) := by
  rfl

/-- The metadata discipline preserved across the run: a registry value may sit
only under the key nodes, and at most one binding carries that key. -/
def metaOkP (m : Pydict MetaVal) : Prop :=
  (∀ kv ∈ m, MetaVal.isRegistry kv.2 = true → kv.1 = "nodes")
  ∧ Pydict.countKey m "nodes" ≤ 1

theorem runLoop_metaOkP (p : Pipeline)
    (hproc : ∀ name ctx, metaOkP ctx.metadata
      → metaOkP ((p.procOf name ctx).1).metadata) :
    ∀ (fuel : Nat) (cur : Option String) (ctx : TaskContext),
      metaOkP ctx.metadata →
      ∀ (c : TaskContext) (t : List String),
        Pipeline.runLoop p fuel cur ctx = LoopResult.finished c t →
        metaOkP c.metadata := by
  intro fuel
  induction fuel with
  | zero =>
    intro cur ctx hm c t hrun
    cases cur with
    | none =>
        simp only [Pipeline.runLoop, LoopResult.finished.injEq] at hrun
        rw [← hrun.1]
        exact hm
    | some current => simp [Pipeline.runLoop] at hrun
  | succ n ih =>
    intro cur ctx hm c t hrun
    cases cur with
    | none =>
        simp only [Pipeline.runLoop, LoopResult.finished.injEq] at hrun
        rw [← hrun.1]
        exact hm
    | some current =>
        rw [Pipeline.runLoop] at hrun
        cases hg : Pydict.get? (Pipeline.nodes p) current with
        | none => rw [hg] at hrun; dsimp only [] at hrun; simp at hrun
        | some cfg =>
            rw [hg] at hrun
            dsimp only [] at hrun
            cases hp : p.procOf current ctx with
            | mk ctx1 eopt =>
                rw [hp] at hrun
                cases eopt with
                | some e => simp at hrun
                | none =>
                    dsimp only [] at hrun
                    have hm1 : metaOkP ctx1.metadata := by
                      have := hproc current ctx hm
                      rw [hp] at this
                      exact this
                    cases hn : Pipeline.get_next_node_class p current ctx1 with
                    | error e => rw [hn] at hrun; simp at hrun
                    | ok next =>
                        rw [hn] at hrun
                        dsimp only [] at hrun
                        cases hr : Pipeline.runLoop p n next ctx1 with
                        | finished c2 t2 =>
                            rw [hr] at hrun
                            simp only [LoopResult.finished.injEq] at hrun
                            rw [← hrun.1]
                            exact ih next ctx1 hm1 c2 t2 hr
                        | raised c2 t2 e2 n2 => rw [hr] at hrun; simp at hrun
                        | outOfFuel c2 t2 => rw [hr] at hrun; simp at hrun

/-- C8: whenever Pipeline.run returns a context, that context's metadata no
longer binds the key nodes (the registry staged at the start of the run has
been popped), and, provided every node's process call respects the metadata
discipline of keeping registry values only under the key nodes, no metadata
binding of the returned context references the node registry at all. -/
theorem metadata_registry_hygiene (p : Pipeline)
    (hproc : ∀ name ctx, metaOkP ctx.metadata
      → metaOkP ((p.procOf name ctx).1).metadata)
    (fuel : Nat) (ev : EventSchema) (ctx : TaskContext)
    (hrun : Pipeline.run p fuel ev = RunResult.returns ctx) :
    Pydict.get? ctx.metadata "nodes" = none
    ∧ ∀ kv ∈ ctx.metadata, MetaVal.isRegistry kv.2 = false := by
  have hm0 : metaOkP
      (Pydict.set ([] : Pydict MetaVal) "nodes"
        (MetaVal.registry (Pipeline.nodes p))) := by
    constructor
    · intro kv hkv _hreg
      simp only [Pydict.set, List.mem_singleton] at hkv
      rw [hkv]
    · simp [Pydict.set, Pydict.countKey]
  unfold Pipeline.run Pipeline.runWithTrace at hrun
  dsimp only [] at hrun
  cases hloop : Pipeline.runLoop p fuel (some p.pipeline_schema.start)
      { event := ev, nodes := [],
        metadata := Pydict.set ([] : Pydict MetaVal) "nodes"
          (MetaVal.registry (Pipeline.nodes p)) } with
  | finished c t =>
      rw [hloop] at hrun
      simp only [RunResult.returns.injEq] at hrun
      have hmc : metaOkP c.metadata :=
        runLoop_metaOkP p hproc fuel (some p.pipeline_schema.start) _ hm0 c t hloop
      rw [← hrun]
      dsimp only []
      constructor
      · exact Pydict.get?_pop_self c.metadata "nodes" hmc.2
      · intro kv hkv
        cases hb : MetaVal.isRegistry kv.2 with
        | false => rfl
        | true =>
            exfalso
            have hmem : kv ∈ c.metadata := Pydict.mem_of_mem_pop c.metadata "nodes" kv hkv
            have hkey : kv.1 = "nodes" := hmc.1 kv hmem hb
            have hkv2 : (kv.1, kv.2) ∈ Pydict.pop c.metadata "nodes" := by
              simpa using hkv
            rw [hkey] at hkv2
            have hpos := Pydict.countKey_pos_of_mem _ "nodes" kv.2 hkv2
            have hcount := Pydict.countKey_pop c.metadata "nodes"
            have hle : Pydict.countKey c.metadata "nodes" ≤ 1 := hmc.2
            omega
  | raised c t e n =>
      rw [hloop] at hrun
      simp at hrun
  | outOfFuel c t =>
      rw [hloop] at hrun
      simp at hrun

/-- A one node pipeline with an inert process, used to run to completion. -/
def pipeC8 : Pipeline :=
  { pipeline_schema := { start := "A", nodes := [{ node := "A" }] },
    procOf := fun _ ctx => (ctx, none),
    routeOf := fun _ _ => Except.ok none }

theorem metadata_registry_hygiene_witness :
    (Pipeline.run pipeC8 2 { payload := "e" }
        = RunResult.returns { event := { payload := "e" }, nodes := [], metadata := [] })
    ∧ (Pydict.get? ([] : Pydict MetaVal) "nodes" = none
      ∧ ∀ kv ∈ ([] : Pydict MetaVal), MetaVal.isRegistry kv.2 = false) := by
  exact ⟨rfl, metadata_registry_hygiene pipeC8 (fun _ _ h => h) 2 { payload := "e" }
    { event := { payload := "e" }, nodes := [], metadata := [] } rfl⟩
